import Mathlib

/-!
Shallow embedding of `nbrmd/cell_to_text.py` (export of notebook cells as
text) and proofs about it.

Python strings are modelled as `List Char` (`PyStr`); a cell source is a
single `PyStr`, a source *line list* is a `List PyStr`.  External
collaborators (`filter_metadata`, `cell_language`, `is_active`,
`escape_magic`, the option serializers, and the reverse-decoder probe
`code_to_cell`) live in other modules of the repository and are modelled as
abstract functions gathered in an `Env` record.
-/

namespace Nbrmd

/-- Python strings, modelled as lists of characters. -/
abbrev PyStr := List Char

/-- Convenience: a Lean string literal as a `PyStr`. -/
def str (s : String) : PyStr := s.toList

/-- Python `s.startswith(p)`. -/
def startswith (p s : PyStr) : Bool := List.isPrefixOf p s

/-- The characters matched by the Python regex class `\s` (Unicode mode,
as used by `re.compile` on `str` patterns). -/
def isPySpace (c : Char) : Bool :=
  c = ' ' || c = '\t' || c = '\n' || c = '\r' || c = '\x0b' || c = '\x0c' ||
  c = '\x1c' || c = '\x1d' || c = '\x1e' || c = '\x1f' || c = '\x85' ||
  c = '\xa0' || c = '\u1680' || c = '\u2000' || c = '\u2001' || c = '\u2002' ||
  c = '\u2003' || c = '\u2004' || c = '\u2005' || c = '\u2006' || c = '\u2007' ||
  c = '\u2008' || c = '\u2009' || c = '\u200a' || c = '\u2028' || c = '\u2029' ||
  c = '\u202f' || c = '\u205f' || c = '\u3000'

/-- Does `line` match the regex `^#( )` + `"-" * n` + `\s*$`
from `py_endofcell_marker` (a `#`, one space, `n` dashes, then only
trailing whitespace)?  Lines carry no terminating newline, so `$` is
plain end-of-string here. -/
def eocMatch (n : Nat) (line : PyStr) : Bool :=
  (line.take (2 + n) == '#' :: ' ' :: List.replicate n '-') &&
    (line.drop (2 + n)).all isPySpace

/-- `list(filter(endofcell_re.match, source))` is non-empty, for the marker
of `n` dashes. -/
def eocCollides (source : List PyStr) (n : Nat) : Bool :=
  source.any (eocMatch n)

/-- The `while True` loop of `py_endofcell_marker`, written with explicit
fuel: starting from a marker of `n` dashes, grow the marker while it
collides with a line of `source`.  Fuel `source.length + 1` is proved
sufficient below (`pyEocAux_eq_of_fuel`). -/
def pyEocAux (source : List PyStr) : Nat → Nat → Nat
  | 0, n => n
  | fuel + 1, n => if eocCollides source n then pyEocAux source fuel (n + 1) else n

/-- `py_endofcell_marker(source)`: the end-of-cell marker `'-'`, grown by one
dash while some line of `source` matches `^#( )<marker>\s*$`. -/
def py_endofcell_marker (source : List PyStr) : PyStr :=
  List.replicate (pyEocAux source (source.length + 1) 1) '-'

/-- Number of leading dashes of a string. -/
def dashRun : PyStr → Nat
  | [] => 0
  | c :: r => if c = '-' then dashRun r + 1 else 0

/-- A line that collides with *some* end-of-cell marker: `#`, one space, at
least one dash, then only trailing whitespace. -/
def isEocLine (l : PyStr) : Bool :=
  match l with
  | '#' :: ' ' :: rest => decide (1 ≤ dashRun rest) && (rest.drop (dashRun rest)).all isPySpace
  | _ => false

/-- The dash runs of the colliding lines of `source`, one entry per
colliding line. -/
def eocRuns (source : List PyStr) : List Nat :=
  (source.filter isEocLine).map (fun l => dashRun (l.drop 2))

/-- The characters at which Python `str.splitlines` splits. -/
def isLineBreakChar (c : Char) : Bool :=
  c = '\n' || c = '\r' || c = '\x0b' || c = '\x0c' || c = '\x1c' || c = '\x1d' ||
  c = '\x1e' || c = '\x85' || c = '\u2028' || c = '\u2029'

/-- Worker for Python `str.splitlines` (keepends=False): `acc` holds the
current line reversed; `\r\n` counts as a single boundary, and a boundary
that ends the string produces no extra empty line. -/
def splitlinesGo : PyStr → PyStr → List PyStr
  | [], acc => [acc.reverse]
  | c :: rest, acc =>
    if isLineBreakChar c then
      match rest with
      | [] => [acc.reverse]
      | c2 :: rest2 =>
        if c = '\r' ∧ c2 = '\n' then
          match rest2 with
          | [] => [acc.reverse]
          | _ :: _ => acc.reverse :: splitlinesGo rest2 []
        else acc.reverse :: splitlinesGo (c2 :: rest2) []
    else splitlinesGo rest (c :: acc)

/-- Python `str.splitlines()` (keepends=False); the empty string splits to the empty list. -/
def splitlines (s : PyStr) : List PyStr :=
  match s with
  | [] => []
  | _ => splitlinesGo s []

/-- `cell_source(cell)`: the source of a cell, as an array of lines. -/
def cell_source (source : PyStr) : List PyStr :=
  if source = [] then [[]]
  else if source.getLast? = some '\n' then splitlines source ++ [[]]
  else splitlines source

/-- Joining a list of lines with the line break `'\n'`. -/
def joinNL : List PyStr → PyStr
  | [] => []
  | [l] => l
  | l :: ls => l ++ '\n' :: joinNL ls

/-- All line-boundary characters occurring in `s` are plain `'\n'`. -/
def onlyNL (s : PyStr) : Bool :=
  s.all (fun c => !isLineBreakChar c || c == '\n')

/-- Metadata values (the fragment of Python values the claims need:
strings, booleans, integers, `None`).  String values are `PyStr`s. -/
inductive MetaValue where
  | str : PyStr → MetaValue
  | boolVal : Bool → MetaValue
  | num : Int → MetaValue
  | null : MetaValue
deriving DecidableEq, Repr

/-- A cell metadata mapping: an ordered association list, keys unique as in
a Python `dict`. -/
abbrev Metadata := List (String × MetaValue)

/-- Python `key in d`. -/
def mcontains (k : String) (m : Metadata) : Bool := m.any (fun p => p.1 = k)

/-- Python `d[key]`; `none` models a `KeyError`. -/
def mlookup (k : String) (m : Metadata) : Option MetaValue :=
  match m with
  | [] => none
  | (k2, v) :: rest => if k2 = k then some v else mlookup k rest

/-- Python `d[key] = v`: replace in place if the key exists, else append
(insertion order is preserved, as in a `dict`). -/
def mset (k : String) (v : MetaValue) (m : Metadata) : Metadata :=
  match m with
  | [] => [(k, v)]
  | (k2, v2) :: rest => if k2 = k then (k, v) :: rest else (k2, v2) :: mset k v rest

/-- Python `del d[key]` (keys are unique in a `dict`). -/
def merase (k : String) (m : Metadata) : Metadata :=
  match m with
  | [] => []
  | (k2, v2) :: rest => if k2 = k then rest else (k2, v2) :: merase k rest

/-- Python `str(...)` of a metadata value, as used by `"# {}".format(...)`. -/
def pyFormat : MetaValue → PyStr
  | .str s => s
  | .boolVal true => str "True"
  | .boolVal false => str "False"
  | .num n => str (toString n)
  | .null => str "None"

/-- The external collaborators of `cell_to_text` (they live in other
modules of the repository): metadata filtering, language detection, the
activation policy, magic escaping, the two option serializers, and the
reverse-decoder probe, i.e. the value `code_to_cell(self, source, False)[1]`
consulted by `explicit_start_marker`. -/
structure Env where
  filter_metadata : Metadata → Metadata
  cell_language : List PyStr → Option String
  is_active : String → Metadata → Bool
  escape_magic : List PyStr → Option String → List PyStr
  metadata_to_rmd_options : Option String → Metadata → PyStr
  metadata_to_json_options : Metadata → PyStr
  code_to_cell_len : List PyStr → Nat

/-- `code_to_rmd(source, metadata, language)` (fenced dialect); returns the
lines and the possibly mutated metadata. -/
def code_to_rmd (env : Env) (source : List PyStr) (metadata : Metadata)
    (language : Option String) : List PyStr × Metadata :=
  let metadata := if env.is_active "Rmd" metadata then metadata
    else mset "eval" (MetaValue.boolVal false) metadata
  let options := env.metadata_to_rmd_options language metadata
  ((str "```\x7b" ++ options ++ str "\x7d") :: source ++ [str "```"], metadata)

/-- `code_to_r(source, metadata)` (R-script dialect). -/
def code_to_r (env : Env) (source : List PyStr) (metadata : Metadata) :
    List PyStr × Metadata :=
  let metadata := if env.is_active "R" metadata then metadata
    else mset "eval" (MetaValue.boolVal false) metadata
  let options := env.metadata_to_rmd_options none metadata
  (if options.isEmpty then source else (str "#+ " ++ options) :: source, metadata)

/-- `code_to_py(source, metadata, padlines)` (plain-script dialect).  The
serializer `metadata_to_json_options` is an external collaborator, passed
in.  `metadata["endofcell"]` raises `KeyError` when the key is absent,
modelled by `none`; the result also carries the metadata as left by the
in-place `del`.  Python multiplies the blank-line list by `padlines`,
which yields the empty list for negative values, hence `Int.toNat`. -/
def code_to_py (toJsonOptions : Metadata → PyStr) (source : List PyStr)
    (metadata : Metadata) (padlines : Int) : Option (List PyStr × Metadata) :=
  if metadata.isEmpty then some (source, metadata)
  else
    match mlookup "endofcell" metadata with
    | none => none
    | some endofcell =>
      let metadata := if endofcell = MetaValue.str (str "-") then
          merase "endofcell" metadata
        else metadata
      some ((str "# + " ++ toJsonOptions metadata) :: source
          ++ List.replicate padlines.toNat []
          ++ [str "# " ++ pyFormat endofcell], metadata)

/-- A notebook cell as seen by `CellExporter`. -/
structure Cell where
  cell_type : String
  source : PyStr
  metadata : Metadata

/-- The state of a `CellExporter` after `__init__`. -/
structure CellExporter where
  ext : String
  cell_type : String
  source : List PyStr
  metadata : Metadata
  language : Option String
  padlines : Int
  skiplines : Int

/-- `cell.metadata.get(key, default)` for the integer-valued layout keys
`padlines`/`skiplines` (the source only ever uses integer values there). -/
def mgetInt (k : String) (default : Int) (m : Metadata) : Int :=
  match mlookup k m with
  | some (MetaValue.num n) => n
  | _ => default

/-- `CellExporter.__init__(cell, default_language, ext)`:  split the source
into lines, filter the metadata, resolve the language as
`cell_language(source) or default_language`, read the layout keys with
their legacy adjustments, and inject an empty-string `active` entry into a raw cell lacking
it. -/
def CellExporter.init (env : Env) (cell : Cell) (default_language : Option String)
    (ext : String) : CellExporter :=
  let source := cell_source cell.source
  let metadata := env.filter_metadata cell.metadata
  let language := match env.cell_language source with
    | some l => some l
    | none => default_language
  let padlines := mgetInt "padlines" 0 cell.metadata
  let skiplines := mgetInt "skiplines" 1 cell.metadata
  let skiplines := if mcontains "skipline" cell.metadata then skiplines + 1 else skiplines
  let skiplines := if mcontains "noskipline" cell.metadata then skiplines - 1 else skiplines
  let metadata := if cell.cell_type = "raw" ∧ mcontains "active" metadata = false then
      mset "active" (MetaValue.str (str "")) metadata
    else metadata
  { ext := ext, cell_type := cell.cell_type, source := source, metadata := metadata,
    language := language, padlines := padlines, skiplines := skiplines }

/-- `CellExporter.is_code()`. -/
def CellExporter.is_code (e : CellExporter) : Bool :=
  if e.cell_type = "code" then true
  else if e.cell_type = "raw" ∧ mcontains "active" e.metadata = true then true
  else false

/-- `CellExporter.markdown_escape(source)`. -/
def CellExporter.markdown_escape (e : CellExporter) (source : List PyStr) :
    List PyStr :=
  if e.ext = ".Rmd" then source
  else if e.ext = ".R" then
    source.map (fun line => if line.isEmpty then str "#\x27" else str "#\x27 " ++ line)
  else source.map (fun line => if line.isEmpty then str "#" else str "# " ++ line)

/-- `CellExporter.explicit_start_marker(source)`: does the python
representation of this cell require an explicit start-of-cell marker?
Checks, in order: non-empty (filtered) metadata; every line of the
*original* source (`self.source`) starting with the comment character
`'#'`; the reverse-decoder probe not consuming exactly `len(source)`
lines. -/
def CellExporter.explicit_start_marker (env : Env) (e : CellExporter)
    (source : List PyStr) : Bool :=
  if e.metadata.isEmpty = false then true
  else if e.source.all (fun line => startswith (str "#") line) then true
  else if env.code_to_cell_len source ≠ source.length then true
  else false

/-- `CellExporter.code_to_text()`: the text representation of a code cell.
Returns the lines (`none` models the `KeyError` that `code_to_py` raises
when a non-empty metadata lacks `endofcell`) together with the final state
of `self.metadata` (which the Python code mutates in place). -/
def CellExporter.code_to_text (env : Env) (e : CellExporter) :
    Option (List PyStr) × Metadata :=
  let active0 := env.is_active e.ext e.metadata
  let forced := (e.ext = ".R" ∨ e.ext = ".py") ∧ active0 = true ∧
      e.language ≠ some (if e.ext = ".R" then "R" else "python")
  let metadata := if forced then
      mset "language"
        (match e.language with
          | some l => MetaValue.str (str l)
          | none => MetaValue.null)
        (mset "active" (MetaValue.str (str "ipynb")) e.metadata)
    else e.metadata
  let active := if forced then false else active0
  let source := if active then env.escape_magic e.source e.language else e.source
  if e.ext = ".Rmd" then
    let r := code_to_rmd env source metadata e.language
    (some r.1, r.2)
  else
    let source := if active then source
      else source.map (fun line => if line.isEmpty then str "#" else str "# " ++ line)
    if e.ext = ".R" then
      let r := code_to_r env source metadata
      (some r.1, r.2)
    else
      let metadata :=
        if CellExporter.explicit_start_marker env { e with metadata := metadata } source then
          mset "endofcell" (MetaValue.str (py_endofcell_marker source)) metadata
        else metadata
      match code_to_py env.metadata_to_json_options source metadata e.padlines with
      | none => (none, metadata)
      | some r => (some r.1, r.2)

/-- `CellExporter.cell_to_text()`. -/
def CellExporter.cell_to_text (env : Env) (e : CellExporter) :
    Option (List PyStr) × Metadata :=
  if e.is_code then CellExporter.code_to_text env e
  else (some (e.markdown_escape e.source), e.metadata)

/-- The inverse of the R-script markdown escaping: strip the fixed
comment prefix (hash and apostrophe for the line that encodes an empty
line, the three-character hash-apostrophe-space prefix otherwise). -/
def r_unescape (line : PyStr) : PyStr :=
  if line = str "#\x27" then [] else line.drop 3

/-- The inverse of the plain-script markdown escaping: strip the fixed
comment prefix (`"#"` for the line that encodes an empty line, the
two-character `"# "` otherwise). -/
def py_unescape (line : PyStr) : PyStr :=
  if line = str "#" then [] else line.drop 2

/-- A concrete instantiation of the external collaborators, used to
evaluate the theorems at concrete inputs. -/
def env0 : Env :=
  { filter_metadata := fun m => m
    cell_language := fun _ => none
    is_active := fun _ _ => true
    escape_magic := fun s _ => s
    metadata_to_rmd_options := fun _ _ => []
    metadata_to_json_options := fun _ => []
    code_to_cell_len := fun s => s.length }

theorem dashRun_cons_ne {c : Char} (h : c ≠ '-') (r : PyStr) : dashRun (c :: r) = 0 := by
  simp [dashRun, h]

theorem dashRun_replicate_append (n : Nat) (t : PyStr) :
    dashRun (List.replicate n '-' ++ t) = n + dashRun t := by
  induction n with
  | zero => simp
  | succ n ih => simp [List.replicate_succ, dashRun, ih]; omega

theorem dashRun_of_all_space {t : PyStr} (h : t.all isPySpace = true) : dashRun t = 0 := by
  cases t with
  | nil => rfl
  | cons c r =>
    have hc : isPySpace c = true := by
      simp [List.all_cons] at h; exact h.1
    have : c ≠ '-' := by
      intro he; subst he; simp [isPySpace] at hc
    exact dashRun_cons_ne this r

/-- A line matching the marker of `n ≥ 1` dashes is an end-of-cell-like line,
and determines `n` uniquely as its dash run. -/
theorem eocMatch_eq_true_iff {n : Nat} (hn : 1 ≤ n) {l : PyStr}
    (h : eocMatch n l = true) :
    isEocLine l = true ∧ n = dashRun (l.drop 2) := by
  unfold eocMatch at h
  rw [Bool.and_eq_true, beq_iff_eq] at h
  obtain ⟨htake, hdrop⟩ := h
  have hl : l = '#' :: ' ' :: (List.replicate n '-' ++ l.drop (2 + n)) := by
    conv_lhs => rw [← List.take_append_drop (2 + n) l]
    rw [htake]; simp
  have hrest : l.drop 2 = List.replicate n '-' ++ l.drop (2 + n) := by
    conv_lhs => rw [hl]
    simp
  have hrun : dashRun (l.drop 2) = n := by
    rw [hrest, dashRun_replicate_append, dashRun_of_all_space hdrop]
    omega
  have hrun2 : dashRun (List.replicate n '-' ++ l.drop (2 + n)) = n := by
    rw [← hrest]; exact hrun
  have hdrop2 : (List.replicate n '-' ++ l.drop (2 + n)).drop n = l.drop (2 + n) := by
    have h := List.drop_left (List.replicate n '-') (l.drop (2 + n))
    rwa [List.length_replicate] at h
  constructor
  · rw [hl]
    simp only [isEocLine, hrun2, hdrop2, hdrop, Bool.and_true, decide_eq_true_eq]
    exact hn
  · rw [hrun]

theorem mem_eocRuns_of_collides {source : List PyStr} {n : Nat} (hn : 1 ≤ n)
    (h : eocCollides source n = true) : n ∈ eocRuns source := by
  unfold eocCollides at h
  rw [List.any_eq_true] at h
  obtain ⟨l, hl, hm⟩ := h
  obtain ⟨hline, hrun⟩ := eocMatch_eq_true_iff hn hm
  exact List.mem_map.mpr ⟨l, List.mem_filter.mpr ⟨hl, hline⟩, hrun.symm⟩

theorem mem_le_foldr_max (l : List Nat) (m : Nat) (h : m ∈ l) :
    m ≤ l.foldr max 0 := by
  induction l with
  | nil => cases h
  | cons a t ih =>
    rcases List.mem_cons.mp h with h | h
    · subst h; exact le_max_left _ _
    · exact le_trans (ih h) (le_max_right _ _)

theorem exists_noncollide (source : List PyStr) :
    ∃ n, eocCollides source (n + 1) = false := by
  refine ⟨(eocRuns source).foldr max 0, ?_⟩
  by_contra h
  have hcol : eocCollides source ((eocRuns source).foldr max 0 + 1) = true := by
    cases hb : eocCollides source ((eocRuns source).foldr max 0 + 1) with
    | false => exact absurd hb h
    | true => rfl
  have := mem_le_foldr_max _ _ (mem_eocRuns_of_collides (Nat.le_add_left 1 _) hcol)
  omega

/-- Running the fuelled loop with enough fuel from any start point at or
below the least non-colliding marker length `K` returns `K`. -/
theorem pyEocAux_run (source : List PyStr) (K : Nat)
    (hK : eocCollides source K = false)
    (hbelow : ∀ m, 1 ≤ m → m < K → eocCollides source m = true) :
    ∀ fuel start, 1 ≤ start → start ≤ K → K < start + fuel →
      pyEocAux source fuel start = K := by
  intro fuel
  induction fuel with
  | zero => intro start _ h2 h3; omega
  | succ fuel ih =>
    intro start h1 h2 h3
    unfold pyEocAux
    by_cases hc : eocCollides source start = true
    · rw [hc]
      simp only [if_true]
      have hne : start ≠ K := by
        intro he; rw [he, hK] at hc; exact Bool.false_ne_true hc
      exact ih (start + 1) (by omega) (by omega) (by omega)
    · rw [Bool.not_eq_true] at hc
      rw [hc]
      simp only [Bool.false_eq_true, if_false]
      by_contra hne
      have hlt : start < K := by omega
      have hcol := hbelow start h1 hlt
      rw [hc] at hcol
      exact Bool.false_ne_true hcol

/-- Master characterization of the Marker Allocator: `py_endofcell_marker`
returns the marker of `k` dashes for the least `k ≥ 1` whose marker no line
of `source` matches; `k` exceeds the number of colliding lines by at most
one, and the grow-and-retest loop already converges with that much fuel. -/
theorem eoc_master (source : List PyStr) :
    ∃ k, 1 ≤ k ∧ eocCollides source k = false ∧
      (∀ m, 1 ≤ m → m < k → eocCollides source m = true) ∧
      k ≤ (source.filter isEocLine).length + 1 ∧
      py_endofcell_marker source = List.replicate k '-' ∧
      pyEocAux source ((source.filter isEocLine).length + 1) 1 = k := by
  set K := Nat.find (exists_noncollide source) + 1 with hKdef
  have hK : eocCollides source K = false := Nat.find_spec (exists_noncollide source)
  have hbelow : ∀ m, 1 ≤ m → m < K → eocCollides source m = true := by
    intro m h1 h2
    obtain ⟨j, rfl⟩ : ∃ j, m = j + 1 := ⟨m - 1, by omega⟩
    have hj : j < Nat.find (exists_noncollide source) := by omega
    have hmin := Nat.find_min (exists_noncollide source) hj
    cases hb : eocCollides source (j + 1) with
    | false => exact absurd hb hmin
    | true => rfl
  have hpos : 1 ≤ K := Nat.le_add_left 1 _
  have hle : K ≤ (source.filter isEocLine).length + 1 := by
    have hsub : Finset.Icc 1 (K - 1) ⊆ (eocRuns source).toFinset := by
      intro m hm
      rw [Finset.mem_Icc] at hm
      have h1 : 1 ≤ m := hm.1
      have h2 : m < K := by omega
      exact List.mem_toFinset.mpr (mem_eocRuns_of_collides h1 (hbelow m h1 h2))
    have hcard := Finset.card_le_card hsub
    rw [Nat.card_Icc] at hcard
    have hlen : (eocRuns source).toFinset.card ≤ (eocRuns source).length :=
      List.toFinset_card_le _
    have hruns : (eocRuns source).length = (source.filter isEocLine).length := by
      unfold eocRuns; simp
    omega
  have hflt : (source.filter isEocLine).length ≤ source.length :=
    List.length_filter_le _ _
  refine ⟨K, hpos, hK, hbelow, hle, ?_, ?_⟩
  · unfold py_endofcell_marker
    rw [pyEocAux_run source K hK hbelow (source.length + 1) 1 le_rfl hpos (by omega)]
  · exact pyEocAux_run source K hK hbelow _ 1 le_rfl hpos (by omega)

theorem splitlinesGo_cons_of_not_break {c : Char} (h : isLineBreakChar c = false)
    (rest acc : PyStr) : splitlinesGo (c :: rest) acc = splitlinesGo rest (c :: acc) := by
  cases rest with
  | nil => simp [splitlinesGo, h]
  | cons c2 rest2 =>
    cases rest2 with
    | nil => simp [splitlinesGo, h]
    | cons c3 r3 => simp [splitlinesGo, h]

theorem splitlinesGo_cons_nl (rest acc : PyStr) :
    splitlinesGo ('\n' :: rest) acc =
      if rest.isEmpty then [acc.reverse] else acc.reverse :: splitlinesGo rest [] := by
  cases rest with
  | nil => simp +decide [splitlinesGo]
  | cons c2 rest2 =>
    cases rest2 with
    | nil => simp +decide [splitlinesGo]
    | cons c3 r3 => simp +decide [splitlinesGo]

theorem splitlinesGo_ne_nil (s : PyStr) : ∀ acc, splitlinesGo s acc ≠ [] := by
  induction s with
  | nil => intro acc; simp [splitlinesGo]
  | cons c rest ih =>
    intro acc
    by_cases hb : isLineBreakChar c = true
    · cases rest with
      | nil => simp [splitlinesGo, hb]
      | cons c2 rest2 =>
        by_cases hcr : c = '\r' ∧ c2 = '\n'
        · obtain ⟨h1, h2⟩ := hcr
          subst h1; subst h2
          cases rest2 with
          | nil => simp +decide [splitlinesGo]
          | cons c3 r3 => simp +decide [splitlinesGo]
        · cases rest2 with
          | nil => simp [splitlinesGo, hb, hcr]
          | cons c3 r3 => simp [splitlinesGo, hb, hcr]
    · rw [Bool.not_eq_true] at hb
      rw [splitlinesGo_cons_of_not_break hb]
      exact ih (c :: acc)

theorem joinNL_cons_of_ne_nil {ls : List PyStr} (h : ls ≠ []) (l : PyStr) :
    joinNL (l :: ls) = l ++ '\n' :: joinNL ls := by
  cases ls with
  | nil => exact absurd rfl h
  | cons a t => rfl

/-- Core of the reversibility argument for `cell_source`: on a string whose
line boundaries are all `'\n'`, joining the split lines with `'\n'` (adding
the trailing empty line when the string ends in `'\n'`) recovers the string. -/
theorem splitlinesGo_joinNL (s : PyStr)
    (h : ∀ c ∈ s, isLineBreakChar c = true → c = '\n') (hne : s ≠ []) :
    ∀ acc : PyStr,
      (s.getLast? = some '\n' → joinNL (splitlinesGo s acc ++ [[]]) = acc.reverse ++ s) ∧
      (s.getLast? ≠ some '\n' → joinNL (splitlinesGo s acc) = acc.reverse ++ s) := by
  induction s with
  | nil => exact absurd rfl hne
  | cons c rest ih =>
    intro acc
    have hc : isLineBreakChar c = true → c = '\n' := h c (List.mem_cons_self c rest)
    have hrest : ∀ x ∈ rest, isLineBreakChar x = true → x = '\n' :=
      fun x hx => h x (List.mem_cons_of_mem c hx)
    cases rest with
    | nil =>
      by_cases hcn : c = '\n'
      · subst hcn
        constructor
        · intro _
          rw [splitlinesGo_cons_nl]
          simp [joinNL]
        · intro hlast
          exact absurd rfl hlast
      · have hb : isLineBreakChar c = false := by
          cases hbv : isLineBreakChar c with
          | false => rfl
          | true => exact absurd (hc hbv) hcn
        constructor
        · intro hlast
          simp at hlast
          exact absurd hlast hcn
        · intro _
          rw [splitlinesGo_cons_of_not_break hb]
          simp [splitlinesGo, joinNL]
    | cons c2 rest2 =>
      have hne2 : c2 :: rest2 ≠ [] := List.cons_ne_nil c2 rest2
      have hlast2 : (c :: c2 :: rest2).getLast? = (c2 :: rest2).getLast? := by
        rw [List.getLast?_cons_cons]
      have ihr := ih hrest hne2
      have hL : splitlinesGo (c2 :: rest2) [] ≠ [] := splitlinesGo_ne_nil _ _
      by_cases hcn : c = '\n'
      · subst hcn
        rw [splitlinesGo_cons_nl]
        simp only [List.isEmpty_cons, if_false, Bool.false_eq_true]
        constructor
        · intro hlast
          rw [List.cons_append,
            joinNL_cons_of_ne_nil (by simp [hL]) acc.reverse]
          have := (ihr []).1 (hlast2 ▸ hlast)
          rw [this]
          simp
        · intro hlast
          rw [joinNL_cons_of_ne_nil hL acc.reverse]
          have := (ihr []).2 (fun hx => hlast (hlast2 ▸ hx))
          rw [this]
          simp
      · have hb : isLineBreakChar c = false := by
          cases hbv : isLineBreakChar c with
          | false => rfl
          | true => exact absurd (hc hbv) hcn
        rw [splitlinesGo_cons_of_not_break hb]
        have iha := ih hrest hne2 (c :: acc)
        constructor
        · intro hlast
          rw [iha.1 (hlast2 ▸ hlast)]
          simp
        · intro hlast
          rw [iha.2 (fun hx => hlast (hlast2 ▸ hx))]
          simp

theorem onlyNL_prop {s : PyStr} (h : onlyNL s = true) :
    ∀ c ∈ s, isLineBreakChar c = true → c = '\n' := by
  intro c hcmem hb
  unfold onlyNL at h
  rw [List.all_eq_true] at h
  have := h c hcmem
  rw [hb] at this
  simpa using this

theorem splitlines_eq_go {s : PyStr} (h : s ≠ []) : splitlines s = splitlinesGo s [] := by
  cases s with
  | nil => exact absurd rfl h
  | cons c r => rfl

theorem mlookup_mset_self (k : String) (v : MetaValue) (m : Metadata) :
    mlookup k (mset k v m) = some v := by
  induction m with
  | nil => simp [mset, mlookup]
  | cons p rest ih =>
    obtain ⟨k2, v2⟩ := p
    by_cases h : k2 = k
    · subst h; simp [mset, mlookup]
    · simp [mset, mlookup, h, ih]

theorem mlookup_mset_ne {k2 k : String} (h : k2 ≠ k) (v : MetaValue) (m : Metadata) :
    mlookup k (mset k2 v m) = mlookup k m := by
  induction m with
  | nil => simp [mset, mlookup, h]
  | cons p rest ih =>
    obtain ⟨k3, v3⟩ := p
    by_cases h3 : k3 = k2
    · subst h3
      simp [mset, mlookup, h]
    · simp [mset, mlookup, h3, ih]

theorem mlookup_merase_ne {k2 k : String} (h : k2 ≠ k) (m : Metadata) :
    mlookup k (merase k2 m) = mlookup k m := by
  induction m with
  | nil => simp [merase]
  | cons p rest ih =>
    obtain ⟨k3, v3⟩ := p
    by_cases h3 : k3 = k2
    · subst h3
      simp [merase, mlookup, h]
    · simp [merase, mlookup, h3, ih]

theorem mset_isEmpty_false (k : String) (v : MetaValue) (m : Metadata) :
    (mset k v m).isEmpty = false := by
  cases m with
  | nil => simp [mset]
  | cons p rest =>
    obtain ⟨k2, v2⟩ := p
    by_cases h : k2 = k <;> simp [mset, h]

theorem mcontains_eq_isSome (k : String) (m : Metadata) :
    mcontains k m = (mlookup k m).isSome := by
  induction m with
  | nil => simp [mcontains, mlookup]
  | cons p rest ih =>
    obtain ⟨k2, v2⟩ := p
    by_cases h : k2 = k
    · subst h; simp [mcontains, mlookup]
    · unfold mcontains at ih ⊢
      simp [mlookup, h, ih]

/-- C2: for every finite list of source lines, `py_endofcell_marker(source)`
returns the shortest token in the sequence "-", "--", "---", … such that no
line of `source` matches the pattern of a `#` character, one space, the
token, then only trailing whitespace; in particular, on the source
`["# -"]` it returns "--", on `["# -", "# --"]` it returns "---", and on
sources containing no such line it returns "-". -/
theorem claim_C2 :
    (∀ source : List PyStr, ∃ k, 1 ≤ k ∧
        py_endofcell_marker source = List.replicate k '-' ∧
        eocCollides source k = false ∧
        ∀ m, 1 ≤ m → m < k → eocCollides source m = true) ∧
    py_endofcell_marker [str "# -"] = str "--" ∧
    py_endofcell_marker [str "# -", str "# --"] = str "---" ∧
    py_endofcell_marker [str "x = 1"] = str "-" ∧
    py_endofcell_marker [] = str "-" := by
  refine ⟨?_, by decide, by decide, by decide, by decide⟩
  intro source
  obtain ⟨k, h1, h2, h3, _, h5, _⟩ := eoc_master source
  exact ⟨k, h1, h5, h2, h3⟩

/-- C3: `py_endofcell_marker(source)` terminates with a definite answer:
the grow-and-retest loop, given fuel (number of colliding lines) + 1,
already returns the final collision-free marker length `k`, and
`k` is at most (number of colliding lines) + 1. -/
theorem claim_C3 (source : List PyStr) :
    ∃ k, py_endofcell_marker source = List.replicate k '-' ∧
      eocCollides source k = false ∧
      k ≤ (source.filter isEocLine).length + 1 ∧
      pyEocAux source ((source.filter isEocLine).length + 1) 1 = k := by
  obtain ⟨k, _, h2, _, h4, h5, h6⟩ := eoc_master source
  exact ⟨k, h5, h2, h4, h6⟩

/-- C5: `code_to_py` with an empty metadata mapping returns `source`
unchanged — no marker lines of any kind — for every source-line list,
every serializer and every padlines value. -/
theorem claim_C5 (toJsonOptions : Metadata → PyStr) (source : List PyStr)
    (padlines : Int) :
    code_to_py toJsonOptions source [] padlines = some (source, []) := rfl

/-- C10: `cell_source` always returns a non-empty list of lines, for every
cell source string (including the empty one), so every downstream per-line
operation sees at least one line. -/
theorem claim_C10 (s : PyStr) : cell_source s ≠ [] := by
  unfold cell_source
  by_cases he : s = []
  · simp [he]
  · by_cases hl : s.getLast? = some '\n'
    · simp [he, hl]
    · simp only [he, hl, if_false]
      rw [splitlines_eq_go he]
      exact splitlinesGo_ne_nil s []

/-- Looking up any key other than `eval` through the metadata returned by
`code_to_r` sees the input metadata. -/
theorem mlookup_code_to_r (env : Env) (src : List PyStr) (M : Metadata)
    (k : String) (hk : k ≠ "eval") :
    mlookup k (code_to_r env src M).2 = mlookup k M := by
  unfold code_to_r
  by_cases hA : env.is_active "R" M = true
  · simp only [hA, if_true]
  · simp only [hA, if_false]
    exact mlookup_mset_ne (Ne.symm hk) _ _

/-- The source lines always appear contiguously in the output of
`code_to_r`. -/
theorem code_to_r_infix (env : Env) (src : List PyStr) (M : Metadata) :
    src <:+: (code_to_r env src M).1 := by
  unfold code_to_r
  dsimp only
  split <;> try split
  all_goals first
    | exact List.infix_refl _
    | exact List.IsSuffix.isInfix (List.suffix_cons _ _)

/-- Evaluation of `code_to_py` when the key `endofcell` is present in a
non-empty metadata mapping. -/
theorem code_to_py_of_lookup (toJsonOptions : Metadata → PyStr)
    (source : List PyStr) (metadata : Metadata) (padlines : Int)
    (endofcell : MetaValue) (hne : metadata.isEmpty = false)
    (hlk : mlookup "endofcell" metadata = some endofcell) :
    code_to_py toJsonOptions source metadata padlines =
      some ((str "# + " ++ toJsonOptions (if endofcell = MetaValue.str (str "-")
              then merase "endofcell" metadata else metadata)) :: source
          ++ List.replicate padlines.toNat []
          ++ [str "# " ++ pyFormat endofcell],
        if endofcell = MetaValue.str (str "-") then merase "endofcell" metadata
        else metadata) := by
  unfold code_to_py
  rw [hne, hlk]
  simp

/-- C1: `explicit_start_marker(source)` returns true iff the filtered
metadata of the cell is non-empty, or every line of the original (unescaped)
source begins with the comment character `'#'` used by the inactive-cell
prefix, or the reverse-decoder probe consumes a number of lines different
from `len(source)`; otherwise false. -/
theorem claim_C1 (env : Env) (e : CellExporter) (source : List PyStr) :
    CellExporter.explicit_start_marker env e source = true ↔
      (e.metadata.isEmpty = false ∨
        (∀ line ∈ e.source, startswith (str "#") line = true) ∨
        env.code_to_cell_len source ≠ source.length) := by
  unfold CellExporter.explicit_start_marker
  by_cases h1 : e.metadata.isEmpty = false
  · simp [h1]
  · by_cases h2 : e.source.all (fun line => startswith (str "#") line) = true
    · simp only [h2, if_true]
      constructor
      · intro _
        exact Or.inr (Or.inl (List.all_eq_true.mp h2))
      · intro _
        by_cases hm : List.isEmpty e.metadata = false <;> simp [hm]
    · by_cases h3 : env.code_to_cell_len source ≠ source.length
      · simp [h1, h2, h3]
      · rw [List.all_eq_true] at h2
        simp [h1, h2, h3]

/-- C4 counterexample: on a non-empty metadata mapping that lacks the key
`endofcell`, `code_to_py` raises `KeyError` (modelled by `none`) — it does
not default the marker to "-" and emit the claimed marker lines. -/
theorem claim_C4_counterexample :
    code_to_py (fun _ => []) [str "x = 1"] [("foo", MetaValue.boolVal true)] 0 =
      none := by
  rfl

/-- C4 (amended): for every non-empty metadata mapping in which the key
`endofcell` is *present*, `code_to_py` reads it, drops it from the
persisted metadata exactly when its value equals "-", and returns the
start line "# + " + options, then the source lines, then `padlines` blank
lines, then the end line "# " + marker.  (When the key is absent from a
non-empty mapping, the code raises `KeyError` rather than defaulting to
"-", see the counterexample.) -/
theorem claim_C4 (toJsonOptions : Metadata → PyStr) (source : List PyStr)
    (metadata : Metadata) (padlines : Int) (endofcell : MetaValue)
    (hne : metadata.isEmpty = false)
    (hlk : mlookup "endofcell" metadata = some endofcell) :
    code_to_py toJsonOptions source metadata padlines =
      some ((str "# + " ++ toJsonOptions (if endofcell = MetaValue.str (str "-")
              then merase "endofcell" metadata else metadata)) :: source
          ++ List.replicate padlines.toNat []
          ++ [str "# " ++ pyFormat endofcell],
        if endofcell = MetaValue.str (str "-") then merase "endofcell" metadata
        else metadata) :=
  code_to_py_of_lookup toJsonOptions source metadata padlines endofcell hne hlk

/-- Witness for C4 at a concrete input. -/
theorem claim_C4_witness :
    code_to_py (fun _ => []) [str "1 + 1"]
        [("endofcell", MetaValue.str (str "-"))] 0 =
      some ([str "# + ", str "1 + 1", str "# -"], []) := by
  have h := claim_C4 (fun _ => []) [str "1 + 1"]
      [("endofcell", MetaValue.str (str "-"))] 0 (MetaValue.str (str "-"))
      (by decide) (by decide)
  simpa using h

/-- C6 counterexample: splitting is not reversible for every cell — the
source "a\rb" is split at the carriage return, and joining the lines with
a line break yields "a\nb", not the original string. -/
theorem claim_C6_counterexample :
    cell_source (str "a\rb") = [str "a", str "b"] ∧
      joinNL (cell_source (str "a\rb")) ≠ str "a\rb" := by
  exact ⟨by decide, by decide⟩

/-- C6 (amended): for every cell such that the line-boundary characters
of the source are all the plain line break `'\n'`: an empty source yields one
empty line; a source ending in `'\n'` yields its line-split plus one
trailing empty line; any other source yields its plain line-split; and
joining the resulting lines with `'\n'` recovers the original string.
(For the other boundaries recognized by `str.splitlines` — `'\r'`,
`'\x0b'`, … — the source is split there as well and `'\n'`-joining does
not recover the original, see the counterexample.) -/
theorem claim_C6 (s : PyStr) (h : onlyNL s = true) :
    (s = [] → cell_source s = [[]]) ∧
    (s ≠ [] → s.getLast? = some '\n' → cell_source s = splitlines s ++ [[]]) ∧
    (s ≠ [] → s.getLast? ≠ some '\n' → cell_source s = splitlines s) ∧
    joinNL (cell_source s) = s := by
  refine ⟨?_, ?_, ?_, ?_⟩
  · intro he; simp [cell_source, he]
  · intro hne hl; simp [cell_source, hne, hl]
  · intro hne hl; simp [cell_source, hne, hl]
  · by_cases he : s = []
    · subst he; simp [cell_source, joinNL]
    · have hp := onlyNL_prop h
      have hgo := splitlinesGo_joinNL s hp he
      by_cases hl : s.getLast? = some '\n'
      · have hcs : cell_source s = splitlines s ++ [[]] := by
          simp [cell_source, he, hl]
        rw [hcs, splitlines_eq_go he]
        have hj := (hgo []).1 hl
        simpa using hj
      · have hcs : cell_source s = splitlines s := by
          simp [cell_source, he, hl]
        rw [hcs, splitlines_eq_go he]
        have hj := (hgo []).2 hl
        simpa using hj

/-- Witness for C6 at a concrete input. -/
theorem claim_C6_witness :
    joinNL (cell_source (str "a\nb")) = str "a\nb" :=
  (claim_C6 (str "a\nb") (by decide)).2.2.2

/-- C8: a raw cell whose filtered metadata lacks the key `active` gets
`active = ""` (the empty string) injected during construction and is then
classified as code; and `is_code()` returns true exactly when the cell
type is code, or the cell type is raw and `active` is present in the
metadata. -/
theorem claim_C8 (env : Env) (cell : Cell) (default_language : Option String)
    (ext : String) (hraw : cell.cell_type = "raw")
    (hno : mcontains "active" (env.filter_metadata cell.metadata) = false) :
    (mlookup "active" (CellExporter.init env cell default_language ext).metadata =
        some (MetaValue.str (str "")) ∧
      (CellExporter.init env cell default_language ext).is_code = true) ∧
    (∀ e : CellExporter, e.is_code = true ↔
      (e.cell_type = "code" ∨
        (e.cell_type = "raw" ∧ mcontains "active" e.metadata = true))) := by
  constructor
  · constructor
    · simp [CellExporter.init, hraw, hno, mlookup_mset_self]
    · simp [CellExporter.init, CellExporter.is_code, hraw, hno,
        mcontains_eq_isSome, mlookup_mset_self]
  · intro e
    unfold CellExporter.is_code
    by_cases h1 : e.cell_type = "code"
    · simp [h1]
    · by_cases h2 : e.cell_type = "raw" ∧ mcontains "active" e.metadata = true
      · simp [h1, h2]
      · simp [h1, h2]

/-- Witness for C8 at a concrete input. -/
theorem claim_C8_witness :
    mlookup "active"
        (CellExporter.init env0
          { cell_type := "raw", source := [], metadata := [] } none ".py").metadata =
      some (MetaValue.str (str "")) ∧
    (CellExporter.init env0
        { cell_type := "raw", source := [], metadata := [] } none ".py").is_code = true :=
  (claim_C8 env0 { cell_type := "raw", source := [], metadata := [] } none ".py"
    rfl (by decide)).1

theorem r_unescape_line (l : PyStr) :
    r_unescape (if l = [] then str "#\x27" else str "#\x27 " ++ l) = l := by
  by_cases h : l = []
  · subst h
    simp [r_unescape]
  · rw [if_neg h]
    unfold r_unescape
    have hne : str "#\x27 " ++ l ≠ str "#\x27" := by
      intro hcontra
      have hlen := congrArg List.length hcontra
      rw [List.length_append] at hlen
      have h3 : (str "#\x27 ").length = 3 := rfl
      have h2 : (str "#\x27").length = 2 := rfl
      rw [h3, h2] at hlen
      omega
    rw [if_neg hne]
    rfl

theorem py_unescape_line (l : PyStr) :
    py_unescape (if l = [] then str "#" else str "# " ++ l) = l := by
  by_cases h : l = []
  · subst h
    simp [py_unescape]
  · rw [if_neg h]
    unfold py_unescape
    have hne : str "# " ++ l ≠ str "#" := by
      intro hcontra
      have hlen := congrArg List.length hcontra
      rw [List.length_append] at hlen
      have h2 : (str "# ").length = 2 := rfl
      have h1 : (str "#").length = 1 := rfl
      rw [h2, h1] at hlen
      omega
    rw [if_neg hne]
    rfl

/-- C9: `markdown_escape` is the identity for the fenced (.Rmd) dialect;
for the R-script dialect it maps each non-empty line to the
hash-apostrophe-space prefix plus the line and each empty line to the
hash-apostrophe pair; for every other dialect it maps each non-empty
line to "# " + line and each empty line to "#"; and in each dialect the
mapping is injective, inverted exactly by stripping the fixed prefix
(`r_unescape` / `py_unescape`). -/
theorem claim_C9 (e : CellExporter) (source : List PyStr) :
    (e.ext = ".Rmd" → e.markdown_escape source = source) ∧
    (e.ext = ".R" →
      e.markdown_escape source =
        source.map (fun line => if line.isEmpty then str "#\x27" else str "#\x27 " ++ line) ∧
      (e.markdown_escape source).map r_unescape = source) ∧
    (e.ext ≠ ".Rmd" → e.ext ≠ ".R" →
      e.markdown_escape source =
        source.map (fun line => if line.isEmpty then str "#" else str "# " ++ line) ∧
      (e.markdown_escape source).map py_unescape = source) ∧
    (∀ source2, e.markdown_escape source = e.markdown_escape source2 →
      source = source2) := by
  have hRinv : e.ext = ".R" → ∀ src : List PyStr,
      (e.markdown_escape src).map r_unescape = src := by
    intro h src
    have hesc : e.markdown_escape src =
        src.map (fun line => if line.isEmpty then str "#\x27" else str "#\x27 " ++ line) := by
      simp [CellExporter.markdown_escape, h]
    rw [hesc, List.map_map]
    clear hesc
    induction src with
    | nil => rfl
    | cons a t ih => simpa [r_unescape_line] using ih
  have hPinv : e.ext ≠ ".Rmd" → e.ext ≠ ".R" → ∀ src : List PyStr,
      (e.markdown_escape src).map py_unescape = src := by
    intro h1 h2 src
    have hesc : e.markdown_escape src =
        src.map (fun line => if line.isEmpty then str "#" else str "# " ++ line) := by
      simp [CellExporter.markdown_escape, h1, h2]
    rw [hesc, List.map_map]
    clear hesc
    induction src with
    | nil => rfl
    | cons a t ih => simpa [py_unescape_line] using ih
  refine ⟨?_, ?_, ?_, ?_⟩
  · intro h
    simp [CellExporter.markdown_escape, h]
  · intro h
    refine ⟨by simp [CellExporter.markdown_escape, h], hRinv h source⟩
  · intro h1 h2
    refine ⟨by simp [CellExporter.markdown_escape, h1, h2], hPinv h1 h2 source⟩
  · intro source2 heq
    by_cases h1 : e.ext = ".Rmd"
    · have ha : e.markdown_escape source = source := by
        simp [CellExporter.markdown_escape, h1]
      have hb : e.markdown_escape source2 = source2 := by
        simp [CellExporter.markdown_escape, h1]
      rw [ha, hb] at heq
      exact heq
    · by_cases h2 : e.ext = ".R"
      · have ha := hRinv h2 source
        have hb := hRinv h2 source2
        rw [heq] at ha
        rw [hb] at ha
        exact ha.symm
      · have ha := hPinv h1 h2 source
        have hb := hPinv h1 h2 source2
        rw [heq] at ha
        rw [hb] at ha
        exact ha.symm

/-- Witness for C9 at a concrete input (R-script dialect). -/
theorem claim_C9_witness :
    (({ ext := ".R", cell_type := "code", source := [], metadata := [],
        language := none, padlines := 0, skiplines := 1 } :
          CellExporter).markdown_escape [str "x = 1", []]).map r_unescape =
      [str "x = 1", []] :=
  ((claim_C9
    ({ ext := ".R", cell_type := "code", source := [], metadata := [],
       language := none, padlines := 0, skiplines := 1 } : CellExporter)
    [str "x = 1", []]).2.1 rfl).2

theorem mlookup_forced_active (md : Metadata) (v : MetaValue) :
    mlookup "active" (mset "language" v (mset "active" (MetaValue.str (str "ipynb")) md)) =
      some (MetaValue.str (str "ipynb")) := by
  rw [mlookup_mset_ne (by decide), mlookup_mset_self]

theorem mlookup_forced_language (md : Metadata) (v : MetaValue) :
    mlookup "language" (mset "language" v (mset "active" (MetaValue.str (str "ipynb")) md)) =
      some v := by
  rw [mlookup_mset_self]

/-- C7: for the R-script and plain-script dialects, a code cell that is
active per the activation rule of the dialect but whose resolved language
is not the native language of the dialect (R for .R, python for .py) is forced
inactive by `code_to_text` — its source appears inside the output commented
with the inert prefix, with no magic escaping — and the final metadata
records `active = "ipynb"` and `language` = the original resolved
language. -/
theorem claim_C7 (env : Env) (e : CellExporter)
    (hext : e.ext = ".R" ∨ e.ext = ".py")
    (hact : env.is_active e.ext e.metadata = true)
    (hlang : e.language ≠ some (if e.ext = ".R" then "R" else "python")) :
    mlookup "active" (CellExporter.code_to_text env e).2 =
        some (MetaValue.str (str "ipynb")) ∧
    mlookup "language" (CellExporter.code_to_text env e).2 =
        some (match e.language with
          | some l => MetaValue.str (str l)
          | none => MetaValue.null) ∧
    ∃ lines, (CellExporter.code_to_text env e).1 = some lines ∧
      (e.source.map (fun line => if line.isEmpty then str "#" else str "# " ++ line))
        <:+: lines := by
  have hcond : (e.ext = ".R" ∨ e.ext = ".py") ∧ env.is_active e.ext e.metadata = true ∧
      e.language ≠ some (if e.ext = ".R" then "R" else "python") := ⟨hext, hact, hlang⟩
  simp only [CellExporter.code_to_text]
  rw [if_pos hcond, if_pos hcond]
  simp only [Bool.false_eq_true, if_false]
  rcases hext with hR | hP
  · -- R-script dialect
    have hRmdne : e.ext ≠ ".Rmd" := by
      rw [hR]; exact (by decide : (".R" : String) ≠ ".Rmd")
    rw [if_neg hRmdne, if_pos hR]
    refine ⟨?_, ?_, ?_⟩
    · rw [mlookup_code_to_r env _ _ "active" (by decide)]
      exact mlookup_forced_active _ _
    · rw [mlookup_code_to_r env _ _ "language" (by decide)]
      exact mlookup_forced_language _ _
    · exact ⟨_, rfl, code_to_r_infix env _ _⟩
  · -- plain-script dialect
    have hRmdne : e.ext ≠ ".Rmd" := by
      rw [hP]; exact (by decide : (".py" : String) ≠ ".Rmd")
    have hRne : e.ext ≠ ".R" := by
      rw [hP]; exact (by decide : (".py" : String) ≠ ".R")
    rw [if_neg hRmdne, if_neg hRne]
    have hmarker : CellExporter.explicit_start_marker env
        { e with metadata := mset "language"
                  (match e.language with
                    | some l => MetaValue.str (str l)
                    | none => MetaValue.null)
                  (mset "active" (MetaValue.str (str "ipynb")) e.metadata) }
        (e.source.map (fun line => if line.isEmpty then str "#" else str "# " ++ line)) =
        true := by
      unfold CellExporter.explicit_start_marker
      simp [mset_isEmpty_false]
    rw [if_pos hmarker]
    rw [code_to_py_of_lookup env.metadata_to_json_options _ _ e.padlines _
      (mset_isEmpty_false _ _ _) (mlookup_mset_self _ _ _)]
    dsimp only
    refine ⟨?_, ?_, ?_⟩
    · by_cases htok : MetaValue.str (py_endofcell_marker
          (e.source.map (fun line => if line.isEmpty then str "#" else str "# " ++ line))) =
          MetaValue.str (str "-")
      · rw [if_pos htok, mlookup_merase_ne (by decide), mlookup_mset_ne (by decide)]
        exact mlookup_forced_active _ _
      · rw [if_neg htok, mlookup_mset_ne (by decide)]
        exact mlookup_forced_active _ _
    · by_cases htok : MetaValue.str (py_endofcell_marker
          (e.source.map (fun line => if line.isEmpty then str "#" else str "# " ++ line))) =
          MetaValue.str (str "-")
      · rw [if_pos htok, mlookup_merase_ne (by decide), mlookup_mset_ne (by decide)]
        exact mlookup_forced_language _ _
      · rw [if_neg htok, mlookup_mset_ne (by decide)]
        exact mlookup_forced_language _ _
    · exact ⟨_, rfl, List.infix_cons
        (List.IsPrefix.isInfix
          ((List.prefix_append _ _).trans (List.prefix_append _ _)))⟩

/-- Witness for C7 at a concrete input (plain-script dialect, R cell). -/
theorem claim_C7_witness :
    mlookup "active"
        (CellExporter.code_to_text env0
          { ext := ".py", cell_type := "code", source := [str "1 + 1"], metadata := [],
            language := some "R", padlines := 0, skiplines := 1 }).2 =
      some (MetaValue.str (str "ipynb")) ∧
    mlookup "language"
        (CellExporter.code_to_text env0
          { ext := ".py", cell_type := "code", source := [str "1 + 1"], metadata := [],
            language := some "R", padlines := 0, skiplines := 1 }).2 =
      some (MetaValue.str (str "R")) := by
  have h := claim_C7 env0
    { ext := ".py", cell_type := "code", source := [str "1 + 1"], metadata := [],
      language := some "R", padlines := 0, skiplines := 1 }
    (Or.inr rfl) rfl (by simp)
  exact ⟨h.1, h.2.1⟩

end Nbrmd
